import Mathlib

/-!
Verification development for the tview-widgets repository: a scrollable form
container (FormScrollable, file form.go) and a non-focusable button
(NoneFocusableButton, file notfocusedbutton.go) built on the tview toolkit.

The Go code is shallowly embedded: machine integers become Int (Go int
arithmetic in this code never overflows in the scenarios considered and the
source performs no wrapping arithmetic), slices become List, and the only
facts about a child widget that the container inspects (whether a form item is
a TextView, whether a button is disabled, whether a child reports focus)
become Boolean fields.  Calls into the toolkit that mutate a child
(Blur sets the focus flag of a child to false, the focus delegation sets it to
true) are modelled by updating those Boolean fields; calls whose only effect
is external (invoking a delegate, invoking the cancel callback) are modelled
by returning the performed effect alongside the new state.
-/

namespace TviewWidgets

/-! Key codes.  The source compares tcell key values with ==; the concrete
numeric values below follow tcell (KeyTab = 9, KeyEnter = 13, KeyEscape = 27);
keyBacktab stands for tcell.KeyBacktab, a distinct nonnegative code (no proof
depends on its exact numeric value, only on nonnegativity and distinctness). -/

def keyTab : Int := 9

def keyEnter : Int := 13

def keyEscape : Int := 27

def keyBacktab : Int := 353

/-- Form item as seen by the container: the container only ever asks whether
the item is a *TextView (the type switch in the traversal closures and in the
mouse handler) and whether it currently reports focus (HasFocus). -/
structure FormItem where
  isTextView : Bool
  hasFocus : Bool
deriving DecidableEq

/-- Button as seen by the container: IsDisabled and HasFocus. -/
structure FormButton where
  disabled : Bool
  hasFocus : Bool
deriving DecidableEq

/-- State of a FormScrollable: the fields of struct FormScrollable in form.go
that the verified logic reads or writes.  upDisabled and downDisabled are the
disabled flags of the two NoneFocusableButton scroll affordances; hasCancel
records whether the cancel callback field is non-nil. -/
structure FormScrollable where
  items : List FormItem
  buttons : List FormButton
  focusedElement : Int
  lastFinishedKey : Int
  upDisabled : Bool
  downDisabled : Bool
  hasCancel : Bool
deriving DecidableEq

/-- Combined number of children, the Go expression
len(f.items) + len(f.buttons). -/
def allCount (f : FormScrollable) : Int :=
  (f.items.length : Int) + (f.buttons.length : Int)

/-- State produced by NewFormScrollable: empty child lists, focusedElement is
the Go zero value 0, lastFinishedKey is initialised to tcell.KeyTab, the up
scroll button is created disabled (SetDisabled(true)) and the down scroll
button enabled (SetDisabled(false)), and no cancel callback is set. -/
def initFormScrollable : FormScrollable :=
  { items := []
    buttons := []
    focusedElement := 0
    lastFinishedKey := keyTab
    upDisabled := true
    downDisabled := false
    hasCancel := false }

/-- Test performed by the traversal closures and the mouse handler:
GetFormItem(i) is a *TextView, phrased over the item list so that it is
unaffected by updates to the other container fields.  The Go code only
evaluates this after checking i < len(f.items); a negative i would panic in
Go but is never reached by the closures (they start next to focusedElement
and move away from the guarded region); the model returns false there. -/
def isTextViewIn (its : List FormItem) (i : Int) : Bool :=
  if 0 ≤ i then
    match its[i.toNat]? with
    | some it => it.isTextView
    | none => false
  else false

/-! ## Scroll offset computation (Draw, form.go lines 682-689) -/

/-- Vertical scroll offset computed in Draw from the rectangle of the focused
element (y coordinate fy and height fh) and the visible band
[topLimit, bottomLimit).  Mirrors:
  var offset int
  if focusedPosition.y+focusedPosition.height > bottomLimit \x7b
    offset = focusedPosition.y + focusedPosition.height - bottomLimit
    if focusedPosition.y-offset < topLimit \x7b
      offset = focusedPosition.y - topLimit \x7d \x7d -/
def scrollOffset (fy fh topLimit bottomLimit : Int) : Int :=
  if fy + fh > bottomLimit then
    let offset := fy + fh - bottomLimit
    if fy - offset < topLimit then fy - topLimit else offset
  else 0

/-! ## NoneFocusableButton (notfocusedbutton.go) -/

/-- Placeholder for toolkit primitives that a NoneFocusableButton can point
at through its focusable field. -/
inductive Primitive
  | form
  | prim (n : Nat)
deriving DecidableEq

/-- NoneFocusableButton state: the disabled flag, the focusable target field
(nil-able in Go, hence Option) and whether a click callback is set. -/
structure NoneFocusableButton where
  disabled : Bool
  focusable : Option Primitive
  hasClick : Bool
deriving DecidableEq

namespace NoneFocusableButton

/-- HasFocus returns false unconditionally. -/
def HasFocus (_ : NoneFocusableButton) : Bool := false

/-- Blur has an empty body: no state change. -/
def Blur (b : NoneFocusableButton) : NoneFocusableButton := b

/-- InputHandler returns nil: modelled as none (only nil-ness is observable
to the caller dispatching events). -/
def InputHandler (_ : NoneFocusableButton) : Option Unit := none

/-- PasteHandler returns nil. -/
def PasteHandler (_ : NoneFocusableButton) : Option Unit := none

/-- Focus invokes the delegate on the configured focusable target:
delegate(b.focusable). -/
def FocusRun {α : Type} (b : NoneFocusableButton) (delegate : Option Primitive → α) : α :=
  delegate b.focusable

end NoneFocusableButton

/-! ## SetFocus (form.go lines 232-268)

The Go method runs two loops (items, then buttons with offset len(items)),
each updating two int locals that start at their zero value 0:
current is set to each position whose child reports focus (so it ends at the
last such position), future is set to the position equal to the requested
index.  The two updates are independent, so the model computes them by two
scans that each mirror one assignment of the combined loops. -/

/-- Scan mirroring the current assignments: walks the HasFocus flags of the
children from position pos, replacing the accumulator with each position
whose flag is set. -/
def lastTrueAux : List Bool → Nat → Int → Int
  | [], _, cur => cur
  | b :: rest, pos, cur => lastTrueAux rest (pos + 1) (if b then (pos : Int) else cur)

/-- Value of the local current after both loops of SetFocus: items are
scanned from position 0, buttons from position len(items); the accumulator
starts at the Go zero value 0. -/
def currentOf (f : FormScrollable) : Int :=
  lastTrueAux (f.buttons.map (·.hasFocus)) f.items.length
    (lastTrueAux (f.items.map (·.hasFocus)) 0 0)

/-- Scan mirroring the future assignments: positions pos, pos+1, ... for n
children are compared with the requested index; the accumulator is replaced
at the matching position. -/
def matchIdxAux : Nat → Nat → Int → Int → Int
  | 0, _, _, fut => fut
  | n + 1, pos, index, fut =>
      matchIdxAux n (pos + 1) index (if (pos : Int) = index then (pos : Int) else fut)

/-- Value of the local future after both loops of SetFocus. -/
def futureOf (f : FormScrollable) (index : Int) : Int :=
  matchIdxAux f.buttons.length f.items.length index
    (matchIdxAux f.items.length 0 index 0)

/-- Set the hasFocus flag of the item at a position. -/
def setItemFocusFlag : List FormItem → Nat → Bool → List FormItem
  | [], _, _ => []
  | it :: rest, 0, v => { it with hasFocus := v } :: rest
  | it :: rest, n + 1, v => it :: setItemFocusFlag rest n v

/-- Set the hasFocus flag of the button at a position. -/
def setButtonFocusFlag : List FormButton → Nat → Bool → List FormButton
  | [], _, _ => []
  | b :: rest, 0, v => { b with hasFocus := v } :: rest
  | b :: rest, n + 1, v => b :: setButtonFocusFlag rest n v

/-- Result of SetFocus: the new container state plus the performed focus
transfer (position whose child was blurred, position whose child was handed
focus), for stating what the method did to the children. -/
structure SetFocusResult where
  st : FormScrollable
  blurred : Option Int
  focused : Option Int
deriving DecidableEq

/-- SetFocus(index).  After computing current and future, the Go code blurs
and focuses children only when current != future, guarding each access by the
range of the respective list exactly as in the source, and finally always
stores future into focusedElement.  The state change and the reported effect
of each guarded call are written as two conditionals over the same guards. -/
def SetFocusFull (f : FormScrollable) (index : Int) : SetFocusResult :=
  let current := currentOf f
  let future := futureOf f index
  if current = future then
    { st := { f with focusedElement := future }, blurred := none, focused := none }
  else
    let ilen : Int := f.items.length
    let f1 : FormScrollable :=
      if 0 ≤ current ∧ current < ilen then
        { f with items := setItemFocusFlag f.items current.toNat false }
      else if ilen ≤ current ∧ current < allCount f then
        { f with buttons := setButtonFocusFlag f.buttons (current - ilen).toNat false }
      else f
    let blurredRes : Option Int :=
      if 0 ≤ current ∧ current < ilen then some current
      else if ilen ≤ current ∧ current < allCount f then some current
      else none
    let f2 : FormScrollable :=
      if 0 ≤ future ∧ future < ilen then
        { f1 with items := setItemFocusFlag f1.items future.toNat true }
      else if ilen ≤ future ∧ future < allCount f then
        { f1 with buttons := setButtonFocusFlag f1.buttons (future - ilen).toNat true }
      else f1
    let focusedRes : Option Int :=
      if 0 ≤ future ∧ future < ilen then some future
      else if ilen ≤ future ∧ future < allCount f then some future
      else none
    { st := { f2 with focusedElement := future },
      blurred := blurredRes, focused := focusedRes }

/-- State part of SetFocus, used where the source calls f.SetFocus(...). -/
def SetFocusSt (f : FormScrollable) (index : Int) : FormScrollable :=
  (SetFocusFull f index).st

/-- HasFocus flags of all children in traversal order (items, then
buttons). -/
def childFocusFlags (f : FormScrollable) : List Bool :=
  f.items.map (·.hasFocus) ++ f.buttons.map (·.hasFocus)

/-! ## Concrete states used by the counterexamples and witnesses below -/

/-- Claim C4 as stated is false: container with one item (which reports
focus); SetFocus(3) is requested with the out-of-range index 3, yet the
focusedElement field afterwards is 0 because the future local keeps its zero
value when no position matches the requested index. -/
def c4CexForm : FormScrollable :=
  { items := [{ isTextView := false, hasFocus := true }]
    buttons := []
    focusedElement := 0
    lastFinishedKey := keyTab
    upDisabled := true
    downDisabled := false
    hasCancel := false }

/-- Witness for the amended C4: two items, the first reporting focus;
SetFocus(1) stores 1, blurs child 0 and focuses child 1. -/
def c4WitnessForm : FormScrollable :=
  { items := [{ isTextView := false, hasFocus := true },
      { isTextView := false, hasFocus := false }]
    buttons := []
    focusedElement := 0
    lastFinishedKey := keyTab
    upDisabled := true
    downDisabled := false
    hasCancel := false }

/-! ## Forward and backward stepping (NewFormScrollable, form.go lines 89-148)

The closures onNext and onBack installed as click handlers of the two scroll
buttons.  Each contains a recursive inner closure (nn, bb) that walks the
candidate index away from focusedElement, toggling the scroll-button disabled
flags and skipping TextView items.  The Nat fuel argument below only bounds the
recursion depth; the Go recursion terminates because nn stops once the
candidate reaches len(items)+len(buttons) and bb stops below 0, and the fuel
passed by onNext and onBack exceeds the maximal possible depth. -/

/-- Inner closure nn of onNext. -/
def nnAux : Nat → FormScrollable → Int → FormScrollable
  | 0, f, _ => f
  | fuel + 1, f, next =>
    let f1 := if 0 < next then { f with upDisabled := false } else f
    let f2 := if allCount f - 1 ≤ next then { f1 with downDisabled := true } else f1
    if allCount f ≤ next then f2
    else if next < (f.items.length : Int) ∧ isTextViewIn f.items next then
      nnAux fuel f2 (next + 1)
    else SetFocusSt f2 next

/-- Click handler of the down scroll button: nn(f.focusedElement + 1). -/
def onNext (f : FormScrollable) : FormScrollable :=
  nnAux (f.items.length + f.buttons.length + 2) f (f.focusedElement + 1)

/-- Inner closure bb of onBack. -/
def bbAux : Nat → FormScrollable → Int → FormScrollable
  | 0, f, _ => f
  | fuel + 1, f, prev =>
    let f1 := if prev = 0 then { f with upDisabled := true } else f
    if prev < 0 then f1
    else
      let f2 := { f1 with downDisabled := false }
      if prev < (f.items.length : Int) ∧ isTextViewIn f.items prev then
        bbAux fuel f2 (prev - 1)
      else SetFocusSt f2 prev

/-- Click handler of the up scroll button: bb(f.focusedElement - 1). -/
def onBack (f : FormScrollable) : FormScrollable :=
  bbAux (f.items.length + 2) f (f.focusedElement - 1)

/-! ## Focus (form.go lines 741-811)

Focus first resets an out-of-range focusedElement to 0, then walks the
buttons (installing the exit handler on each): when focusedElement equals
the position of a disabled button it is incremented, wrapping to 0 once it
reaches len(items)+len(buttons), and the loop continues; when it equals the
position of a non-disabled button, that button is handed the delegated
focus.  The item loop runs afterwards and hands the delegated focus to the
item whose index equals the (possibly updated) focusedElement.  When no
child was delegated, the Box of the container keeps focus. -/

/-- Button loop of Focus: returns the focusedElement value after the loop
and the positions of the buttons handed to the delegate, in loop order. -/
def focusButtonScan : List FormButton → Nat → Int → Int → Int → Int × List Nat
  | [], _, _, _, fe => (fe, [])
  | b :: rest, idx, ilen, total, fe =>
    if fe = (idx : Int) + ilen then
      if b.disabled then
        focusButtonScan rest (idx + 1) ilen total (if total ≤ fe + 1 then 0 else fe + 1)
      else
        ((focusButtonScan rest (idx + 1) ilen total fe).1,
          idx :: (focusButtonScan rest (idx + 1) ilen total fe).2)
    else focusButtonScan rest (idx + 1) ilen total fe

/-- Item loop of Focus: positions of the items handed to the delegate. -/
def focusItemScan : List FormItem → Nat → Int → List Nat
  | [], _, _ => []
  | _ :: rest, idx, fe =>
    if fe = (idx : Int) then idx :: focusItemScan rest (idx + 1) fe
    else focusItemScan rest (idx + 1) fe

/-- Result of Focus: the new container state, the delegated children and
whether the Box of the container kept focus. -/
structure FocusResult where
  st : FormScrollable
  delegatedItems : List Nat
  delegatedButtons : List Nat
  boxFocused : Bool
deriving DecidableEq

/-- Focus. -/
def FocusModel (f : FormScrollable) : FocusResult :=
  let fe0 := if f.focusedElement < 0 ∨ allCount f ≤ f.focusedElement then 0 else f.focusedElement
  let r := focusButtonScan f.buttons 0 (f.items.length : Int) (allCount f) fe0
  let ids := focusItemScan f.items 0 r.1
  { st := { f with focusedElement := r.1 }
    delegatedItems := ids
    delegatedButtons := r.2
    boxFocused := ids.isEmpty && r.2.isEmpty }

/-- State part of Focus, used where the source re-runs f.Focus(delegate). -/
def FocusSt (f : FormScrollable) : FormScrollable := (FocusModel f).st

/-! ## Exit-key handler (Focus closure, form.go lines 746-774) -/

/-- First statement of the handler closure: a nonnegative key is recorded in
lastFinishedKey. -/
def recordKey (f : FormScrollable) (key : Int) : FormScrollable :=
  if 0 ≤ key then { f with lastFinishedKey := key } else f

/-- Observable outcome of one handler invocation: the container state and
whether the cancel callback was invoked. -/
structure HandlerResult where
  st : FormScrollable
  cancelCalled : Bool
deriving DecidableEq

/-- Handler closure installed by Focus on every item (SetFinishedFunc) and
button (SetExitFunc).  Tab and Enter advance focusedElement and re-run
Focus; Backtab decrements it, wrapping to the last index, and re-runs
Focus; Escape invokes the cancel callback when set and otherwise resets
focusedElement to 0 and re-runs Focus; any other key, when negative and a
nonnegative key is recorded, replays the handler on the recorded key.  The
fuel only bounds the replay depth: the replayed key is nonnegative, so the
Go recursion is at most one level deep and the fuel 1 passed by
handlerModel is never exhausted. -/
def handlerRun (fuel : Nat) (f : FormScrollable) (key : Int) : HandlerResult :=
    if key = keyTab ∨ key = keyEnter then
      { st := FocusSt { recordKey f key with focusedElement := (recordKey f key).focusedElement + 1 }
        cancelCalled := false }
    else if key = keyBacktab then
      { st := FocusSt { recordKey f key with focusedElement := if (recordKey f key).focusedElement - 1 < 0 then allCount (recordKey f key) - 1 else (recordKey f key).focusedElement - 1 }
        cancelCalled := false }
    else if key = keyEscape then
      if (recordKey f key).hasCancel then
        { st := recordKey f key, cancelCalled := true }
      else
        { st := FocusSt { recordKey f key with focusedElement := 0 }, cancelCalled := false }
    else if key < 0 ∧ 0 ≤ (recordKey f key).lastFinishedKey then
      match fuel with
      | 0 => { st := recordKey f key, cancelCalled := false }
      | n + 1 => handlerRun n (recordKey f key) (recordKey f key).lastFinishedKey
    else { st := recordKey f key, cancelCalled := false }

/-- One invocation of the handler closure. -/
def handlerModel (f : FormScrollable) (key : Int) : HandlerResult := handlerRun 1 f key

/-- State reached from NewFormScrollable by AddInputField (one interactive
item, no buttons): focusedElement 0, last finished key Tab, up scroll button
disabled, down scroll button enabled. -/
def c2CexStart : FormScrollable :=
  { items := [{ isTextView := false, hasFocus := false }]
    buttons := []
    focusedElement := 0
    lastFinishedKey := keyTab
    upDisabled := true
    downDisabled := false
    hasCancel := false }

/-- Run of one TextView between interactive items, forward start state. -/
def c7WitnessForm : FormScrollable :=
  { items := [{ isTextView := false, hasFocus := false },
      { isTextView := true, hasFocus := false },
      { isTextView := false, hasFocus := false }]
    buttons := []
    focusedElement := 0
    lastFinishedKey := keyTab
    upDisabled := true
    downDisabled := false
    hasCancel := false }

/-- Run of one TextView between interactive items, backward start state. -/
def c7WitnessBack : FormScrollable :=
  { items := [{ isTextView := false, hasFocus := false },
      { isTextView := true, hasFocus := false },
      { isTextView := false, hasFocus := false }]
    buttons := []
    focusedElement := 2
    lastFinishedKey := keyTab
    upDisabled := true
    downDisabled := false
    hasCancel := false }

/-- State with two buttons, the first enabled, the second disabled, and
focusedElement designating the disabled one. -/
def c3CexForm : FormScrollable :=
  { items := []
    buttons := [{ disabled := false, hasFocus := false },
      { disabled := true, hasFocus := false }]
    focusedElement := 1
    lastFinishedKey := keyTab
    upDisabled := true
    downDisabled := false
    hasCancel := false }

/-- State with a single enabled button so that Focus delegates to it. -/
def c3WitnessForm : FormScrollable :=
  { items := []
    buttons := [{ disabled := false, hasFocus := false }]
    focusedElement := 0
    lastFinishedKey := keyTab
    upDisabled := true
    downDisabled := false
    hasCancel := false }

/-- Two interactive items, last finished key Tab. -/
def c5CexForm : FormScrollable :=
  { items := [{ isTextView := false, hasFocus := false },
      { isTextView := false, hasFocus := false }]
    buttons := []
    focusedElement := 0
    lastFinishedKey := keyTab
    upDisabled := true
    downDisabled := false
    hasCancel := false }

/-- One interactive item and a cancel callback, for exercising the amended
C5 at a concrete state. -/
def c5WitnessForm : FormScrollable :=
  { items := [{ isTextView := false, hasFocus := false }]
    buttons := []
    focusedElement := 0
    lastFinishedKey := keyTab
    upDisabled := true
    downDisabled := false
    hasCancel := true }

/-- Two interactive items with the freshly initialised Tab register. -/
def c10WitnessForm : FormScrollable :=
  { items := [{ isTextView := false, hasFocus := false },
      { isTextView := false, hasFocus := false }]
    buttons := []
    focusedElement := 0
    lastFinishedKey := keyTab
    upDisabled := true
    downDisabled := false
    hasCancel := false }

/-! ## Item and button management operations (form.go lines 394-481) -/

/-- Management operations on the child lists (AddFormItem covering all the
Add helpers that append an item, with the TextView case flagged;
AddButton appends an enabled button created by NewButton). -/
inductive FormOp
  | addFormItem (isTextView : Bool)
  | addButton
  | removeFormItem (index : Nat)
  | removeButton (index : Nat)
  | clear (includeButtons : Bool)
  | clearButtons
deriving DecidableEq

/-- Apply one management operation.  The removals mirror
append(s[:index], s[index+1:]...), which panics in Go unless
index < len(s); the panic is modelled as none.  Clear empties the items,
optionally the buttons, and resets focusedElement to 0; no other operation
touches focusedElement. -/
def applyOp (op : FormOp) (f : FormScrollable) : Option FormScrollable :=
  match op with
  | .addFormItem tv =>
      some { f with items := f.items ++ [{ isTextView := tv, hasFocus := false }] }
  | .addButton =>
      some { f with buttons := f.buttons ++ [{ disabled := false, hasFocus := false }] }
  | .removeFormItem i =>
      if i < f.items.length then
        some { f with items := f.items.take i ++ f.items.drop (i + 1) }
      else none
  | .removeButton i =>
      if i < f.buttons.length then
        some { f with buttons := f.buttons.take i ++ f.buttons.drop (i + 1) }
      else none
  | .clear includeButtons =>
      some { f with items := [], buttons := if includeButtons then [] else f.buttons, focusedElement := 0 }
  | .clearButtons => some { f with buttons := [] }

/-- Apply a sequence of management operations. -/
def applyOps : List FormOp → FormScrollable → Option FormScrollable
  | [], f => some f
  | op :: rest, f =>
    match applyOp op f with
    | some g => applyOps rest g
    | none => none

/-- Result of adding an item and a button and removing the item again. -/
def c1WitnessResult : FormScrollable :=
  { items := []
    buttons := [{ disabled := false, hasFocus := false }]
    focusedElement := 0
    lastFinishedKey := keyTab
    upDisabled := true
    downDisabled := false
    hasCancel := false }

/-! ## Mouse routing (MouseHandler, form.go lines 839-890) -/

/-- Mouse actions distinguished by the routing code. -/
inductive MouseAction
  | leftDown
  | leftClick
  | other
deriving DecidableEq

/-- Item as seen by the mouse loop: the TextView type test plus whether the
toolkit mouse handler of this item consumes the given event (an oracle for
the external child widget, fixed for the event under consideration). -/
structure MouseItem where
  isTextView : Bool
  consumes : Bool
deriving DecidableEq

/-- Which handler consumed the event. -/
inductive MouseTarget
  | item (i : Nat)
  | button (i : Nat)
  | upScroll
  | downScroll
  | container
deriving DecidableEq

/-- MouseHandler of NoneFocusableButton (notfocusedbutton.go lines
134-145): consumes exactly a left click inside its rectangle. -/
def nfbConsumes (action : MouseAction) (inRect : Bool) : Bool :=
  (action == MouseAction.leftClick) && inRect

/-- Environment of one mouse event: the children with their consumption
oracles and the rectangle tests for the two scroll buttons and the
container. -/
structure MouseEnv where
  items : List MouseItem
  buttons : List Bool
  upInRect : Bool
  downInRect : Bool
  formInRect : Bool
deriving DecidableEq

/-- Item loop of MouseHandler: TextView items are skipped for
MouseLeftDown; otherwise each item handler runs in insertion order and the
first consumer stops the loop. -/
def mouseItemScan : List MouseItem → Nat → MouseAction → Option Nat
  | [], _, _ => none
  | it :: rest, i, a =>
    if it.isTextView ∧ a = MouseAction.leftDown then mouseItemScan rest (i + 1) a
    else if it.consumes then some i
    else mouseItemScan rest (i + 1) a

/-- Button loop of MouseHandler. -/
def mouseButtonScan : List Bool → Nat → Option Nat
  | [], _ => none
  | c :: rest, i => if c then some i else mouseButtonScan rest (i + 1)

/-- MouseHandler: items first, then buttons, then the up scroll button,
then the down scroll button; an unconsumed left-down inside the container
rectangle falls back to the container itself (which re-runs Focus). -/
def mouseHandlerModel (env : MouseEnv) (a : MouseAction) : Option MouseTarget :=
  match mouseItemScan env.items 0 a with
  | some i => some (MouseTarget.item i)
  | none =>
    match mouseButtonScan env.buttons 0 with
    | some i => some (MouseTarget.button i)
    | none =>
      if nfbConsumes a env.upInRect then some MouseTarget.upScroll
      else if nfbConsumes a env.downInRect then some MouseTarget.downScroll
      else if a = MouseAction.leftDown ∧ env.formInRect then some MouseTarget.container
      else none

/-- Modelled from the claim wording, for refinement comparison: the
delivery order of the event — the items in insertion order with TextView
items excluded on mouse-left-down, then the buttons in insertion order,
then the up scroll button, then the down scroll button — each paired with
whether its handler consumes the event. -/
def specOfferOrder (env : MouseEnv) (a : MouseAction) : List (MouseTarget × Bool) :=
  ((env.items.enumFrom 0).filter
      (fun p => !(p.2.isTextView && (a == MouseAction.leftDown)))).map
    (fun p => (MouseTarget.item p.1, p.2.consumes))
  ++ (env.buttons.enumFrom 0).map (fun p => (MouseTarget.button p.1, p.2))
  ++ [(MouseTarget.upScroll, nfbConsumes a env.upInRect),
      (MouseTarget.downScroll, nfbConsumes a env.downInRect)]

/-! ## Scan characterisation lemmas for SetFocus -/

/-- Characterisation of the future scan: inside the scanned range the
requested index wins, outside the accumulator survives. -/
theorem matchIdxAux_eq (n : Nat) :
    ∀ (pos : Nat) (index fut : Int),
      matchIdxAux n pos index fut =
        if (pos : Int) ≤ index ∧ index < (pos : Int) + n then index else fut := by
  induction n with
  | zero => intro pos index fut; simp [matchIdxAux]; omega
  | succ n ih =>
      intro pos index fut
      rw [matchIdxAux, ih]
      split_ifs <;> push_cast at * <;> omega

/-- The future local equals the requested index when it is in range, and the
zero value 0 otherwise. -/
theorem futureOf_eq (f : FormScrollable) (index : Int) :
    futureOf f index = if 0 ≤ index ∧ index < allCount f then index else 0 := by
  rw [futureOf, matchIdxAux_eq, matchIdxAux_eq]
  simp only [allCount]
  split_ifs <;> push_cast at * <;> omega

/-- The current scan either keeps its accumulator or lands inside the
scanned range. -/
theorem lastTrueAux_mem (bs : List Bool) :
    ∀ (pos : Nat) (cur : Int),
      lastTrueAux bs pos cur = cur ∨
        ((pos : Int) ≤ lastTrueAux bs pos cur ∧
          lastTrueAux bs pos cur < (pos : Int) + bs.length) := by
  induction bs with
  | nil => intro pos cur; simp [lastTrueAux]
  | cons b rest ih =>
      intro pos cur
      rw [lastTrueAux]
      rcases ih (pos + 1) (if b then (pos : Int) else cur) with h | h
      · rw [h]
        split_ifs with hb
        · right; simp only [List.length_cons]; push_cast; omega
        · left; rfl
      · right
        simp only [List.length_cons] at *
        push_cast at *
        omega

/-- If no scanned flag is set the accumulator survives. -/
theorem lastTrueAux_of_no_true (bs : List Bool) :
    ∀ (pos : Nat) (cur : Int), (∀ x ∈ bs, x = false) → lastTrueAux bs pos cur = cur := by
  induction bs with
  | nil => intro pos cur _; rfl
  | cons b rest ih =>
      intro pos cur hall
      have hb : b = false := hall b (List.mem_cons_self b rest)
      rw [lastTrueAux, hb]
      simp only [Bool.false_eq_true, if_false]
      exact ih (pos + 1) cur fun x hx => hall x (List.mem_cons_of_mem b hx)

/-- If the flag at relative position t is set and no later flag is set, the
scan returns pos + t. -/
theorem lastTrueAux_of_last_true (bs : List Bool) :
    ∀ (pos : Nat) (cur : Int) (t : Nat), bs[t]? = some true →
      (∀ r : Nat, t < r → bs[r]? ≠ some true) →
      lastTrueAux bs pos cur = (pos : Int) + t := by
  induction bs with
  | nil => intro pos cur t ht _; simp at ht
  | cons b rest ih =>
      intro pos cur t ht hafter
      match t with
      | 0 =>
          simp at ht
          rw [lastTrueAux, ht]
          simp only [if_true]
          have hrest : ∀ x ∈ rest, x = false := by
            intro x hx
            obtain ⟨r, hr, hxr⟩ := List.mem_iff_getElem.mp hx
            by_contra hxt
            have hx1 : x = true := by revert hxt; cases x <;> simp
            apply hafter (r + 1) (Nat.succ_pos r)
            simp only [List.getElem?_cons_succ]
            rw [List.getElem?_eq_getElem hr, hxr, hx1]
          rw [lastTrueAux_of_no_true rest (pos + 1) (pos : Int) hrest]
          simp
      | r + 1 =>
          simp only [List.getElem?_cons_succ] at ht
          rw [lastTrueAux]
          have := ih (pos + 1) (if b then (pos : Int) else cur) r ht ?_
          · rw [this]; push_cast; omega
          · intro s hs
            have := hafter (s + 1) (by omega)
            simpa using this

/-- Scanning an appended list is scanning the second part after the first. -/
theorem lastTrueAux_append (l1 l2 : List Bool) :
    ∀ (pos : Nat) (cur : Int),
      lastTrueAux (l1 ++ l2) pos cur =
        lastTrueAux l2 (pos + l1.length) (lastTrueAux l1 pos cur) := by
  induction l1 with
  | nil => intro pos cur; simp [lastTrueAux]
  | cons b rest ih =>
      intro pos cur
      show lastTrueAux (rest ++ l2) (pos + 1) (if b then (pos : Int) else cur) = _
      rw [ih]
      show _ = lastTrueAux l2 (pos + (rest.length + 1))
        (lastTrueAux rest (pos + 1) (if b then (pos : Int) else cur))
      have harith : pos + 1 + rest.length = pos + (rest.length + 1) := by omega
      rw [harith]

/-- The two loops of SetFocus compute the last position in traversal order
whose child reports focus (accumulator 0 when none does). -/
theorem currentOf_eq_scan (f : FormScrollable) :
    currentOf f = lastTrueAux (childFocusFlags f) 0 0 := by
  rw [childFocusFlags, lastTrueAux_append]
  simp [currentOf]

/-- The current local stays inside the index space of the children whenever
that space is non-empty. -/
theorem currentOf_bounds (f : FormScrollable) (h : 0 < allCount f) :
    0 ≤ currentOf f ∧ currentOf f < allCount f := by
  rw [currentOf_eq_scan]
  rcases lastTrueAux_mem (childFocusFlags f) 0 0 with heq | hmem
  · rw [heq]; exact ⟨le_refl 0, h⟩
  · refine ⟨hmem.1, ?_⟩
    have hlen : (childFocusFlags f).length = f.items.length + f.buttons.length := by
      simp [childFocusFlags]
    have := hmem.2
    rw [hlen] at this
    simp only [allCount]
    push_cast at *
    omega

/-- When exactly one child reports focus, the current local is its
position. -/
theorem currentOf_of_unique (f : FormScrollable) (c : Nat)
    (hc : (childFocusFlags f)[c]? = some true)
    (hu : ∀ j : Nat, j ≠ c → (childFocusFlags f)[j]? ≠ some true) :
    currentOf f = c := by
  rw [currentOf_eq_scan]
  have := lastTrueAux_of_last_true (childFocusFlags f) 0 0 c hc
    (fun r hr => hu r (by omega))
  rw [this]
  simp

/-! ## Claim C4 -/

/-- Claim C4, counterexample: SetFocus(3) on a one-item form does not set
focusedElement to the requested index 3. -/
theorem c4_set_focus_counterexample :
    (SetFocusFull c4CexForm 3).st.focusedElement ≠ 3 := by decide

/-- Claim C4, amended: for every index inside [0, len(items)+len(buttons)),
SetFocus(index) sets focusedElement to the requested index (so repeated
calls with the same index are idempotent); it blurs and focuses children
only when index differs from the position of the child currently reporting
focus, computed as the last child reporting focus and defaulting to 0 when
none does; in that case the child at that position is blurred and the child
at index is focused.  For an out-of-range index, focusedElement is set to 0
instead of the requested index. -/
theorem c4_set_focus_amended (f : FormScrollable) (index : Int)
    (h0 : 0 ≤ index) (h1 : index < allCount f) :
    (SetFocusFull f index).st.focusedElement = index ∧
    (index = currentOf f →
      (SetFocusFull f index).blurred = none ∧ (SetFocusFull f index).focused = none) ∧
    (index ≠ currentOf f →
      (SetFocusFull f index).blurred = some (currentOf f) ∧
      (SetFocusFull f index).focused = some index) ∧
    (∀ c : Nat, (childFocusFlags f)[c]? = some true →
      (∀ j : Nat, j ≠ c → (childFocusFlags f)[j]? ≠ some true) →
      currentOf f = c) := by
  have hfut : futureOf f index = index := by
    rw [futureOf_eq]
    simp [h0, h1]
  have hcur := currentOf_bounds f (by omega)
  refine ⟨?_, ?_, ?_, fun c hc hu => currentOf_of_unique f c hc hu⟩
  · simp only [SetFocusFull, hfut]
    split <;> rfl
  · intro heq
    simp only [SetFocusFull, hfut]
    rw [if_pos heq.symm]
    exact ⟨rfl, rfl⟩
  · intro hne
    simp only [SetFocusFull, hfut]
    rw [if_neg (fun hcf => hne hcf.symm)]
    dsimp only
    constructor
    · split_ifs with hb1 hb2
      · rfl
      · rfl
      · exfalso
        simp only [allCount] at hcur hb1 hb2
        omega
    · split_ifs with hb1 hb2
      · rfl
      · rfl
      · exfalso
        simp only [allCount] at h1 hb1 hb2
        omega

theorem c4_set_focus_amended_witness :
    (SetFocusFull c4WitnessForm 1).st.focusedElement = 1 ∧
    (SetFocusFull c4WitnessForm 1).blurred = some (currentOf c4WitnessForm) ∧
    (SetFocusFull c4WitnessForm 1).focused = some 1 := by
  have h := c4_set_focus_amended c4WitnessForm 1 (by decide) (by decide)
  exact ⟨h.1, (h.2.2.1 (by decide)).1, (h.2.2.1 (by decide)).2⟩

/-! ## Claim C6 -/

/-- Claim C6: in Draw, the vertical scroll offset is 0 when the focused
element fits inside the visible band; when its bottom edge exceeds the
visible bottom limit the offset equals exactly the bottom overflow, unless
subtracting that offset would place its top above the visible top limit, in
which case the offset equals exactly the distance from its top to the visible
top. -/
theorem c6_scroll_offset (fy fh topLimit bottomLimit : Int) :
    (topLimit ≤ fy → fy + fh ≤ bottomLimit →
      scrollOffset fy fh topLimit bottomLimit = 0) ∧
    (bottomLimit < fy + fh → topLimit ≤ fy - (fy + fh - bottomLimit) →
      scrollOffset fy fh topLimit bottomLimit = fy + fh - bottomLimit) ∧
    (bottomLimit < fy + fh → fy - (fy + fh - bottomLimit) < topLimit →
      scrollOffset fy fh topLimit bottomLimit = fy - topLimit) := by
  refine ⟨?_, ?_, ?_⟩ <;> intro h1 h2 <;> simp only [scrollOffset] <;> split_ifs <;> omega

/-- Witness for C6: the three cases of the theorem evaluated at concrete
rectangles. -/
theorem c6_scroll_offset_witness :
    scrollOffset 2 3 0 10 = 0 ∧ scrollOffset 8 3 0 10 = 1 ∧ scrollOffset 0 20 3 10 = 0 - 3 := by
  refine ⟨(c6_scroll_offset 2 3 0 10).1 (by decide) (by decide),
    (c6_scroll_offset 8 3 0 10).2.1 (by decide) (by decide),
    (c6_scroll_offset 0 20 3 10).2.2 (by decide) (by decide)⟩

/-! ## Claim C9 -/

/-- Claim C9: for every NoneFocusableButton, HasFocus returns false, Focus
hands the configured focusable target to the delegate, InputHandler and
PasteHandler return nil, and Blur changes nothing. -/
theorem c9_none_focusable_button (b : NoneFocusableButton) :
    b.HasFocus = false ∧
    b.Blur = b ∧
    b.InputHandler = none ∧
    b.PasteHandler = none ∧
    ∀ delegate : Option Primitive → Option Primitive, b.FocusRun delegate = delegate b.focusable :=
  ⟨rfl, rfl, rfl, rfl, fun _ => rfl⟩

/-- SetFocus always stores the future local into focusedElement. -/
theorem SetFocusSt_focusedElement (g : FormScrollable) (i : Int) :
    (SetFocusSt g i).focusedElement = futureOf g i := by
  simp only [SetFocusSt, SetFocusFull]
  split <;> rfl

/-- A successful TextView test implies the index is a valid item index. -/
theorem isTextViewIn_true_bounds (its : List FormItem) (j : Int)
    (h : isTextViewIn its j = true) : 0 ≤ j ∧ j < (its.length : Int) := by
  unfold isTextViewIn at h
  split_ifs at h with h0
  · refine ⟨h0, ?_⟩
    by_contra hge
    push_neg at hge
    have hlen : its.length ≤ j.toNat := by omega
    rw [List.getElem?_eq_none hlen] at h
    simp at h

/-- SetFocus at an in-range index stores exactly that index. -/
theorem SetFocusSt_fe_of_range (g : FormScrollable) (idx : Int)
    (h1 : 0 ≤ idx) (h2 : idx < allCount g) :
    (SetFocusSt g idx).focusedElement = idx := by
  rw [SetFocusSt_focusedElement, futureOf_eq, if_pos ⟨h1, h2⟩]

/-- Stepping forward past the end: when every index from next up to the end
of the combined list is a TextView item (or next is already past the end),
nn enables the up affordance, disables the down affordance, and never calls
SetFocus, leaving everything else unchanged. -/
theorem nnAux_past (m : Nat) :
    ∀ (fuel : Nat) (f : FormScrollable) (next : Int),
      m + 1 ≤ fuel → 0 < next →
      allCount f = next + m →
      (∀ j : Int, next ≤ j → j < allCount f → isTextViewIn f.items j = true) →
      nnAux fuel f next = { f with upDisabled := false, downDisabled := true } := by
  induction m with
  | zero =>
      intro fuel f next hfuel hpos hall _
      obtain ⟨k, rfl⟩ : ∃ k, fuel = k + 1 := ⟨fuel - 1, by omega⟩
      simp only [Nat.cast_zero, add_zero] at hall
      simp only [nnAux]
      rw [if_pos hpos, if_pos (show allCount f - 1 ≤ next by omega),
        if_pos (show allCount f ≤ next by omega)]
  | succ m ih =>
      intro fuel f next hfuel hpos hall htv
      obtain ⟨k, rfl⟩ : ∃ k, fuel = k + 1 := ⟨fuel - 1, by omega⟩
      have hnext_lt : next < allCount f := by push_cast at hall; omega
      have htv_next : isTextViewIn f.items next = true := htv next le_rfl hnext_lt
      have hbounds := isTextViewIn_true_bounds f.items next htv_next
      simp only [nnAux]
      rw [if_pos hpos, if_neg (show ¬ allCount f ≤ next by omega),
        if_pos (And.intro hbounds.2 htv_next)]
      by_cases hP : allCount f - 1 ≤ next
      · rw [if_pos hP]
        rw [ih k { f with upDisabled := false, downDisabled := true } (next + 1)
          (by omega) (by omega)
          (by show allCount f = next + 1 + (m : Int); push_cast at hall; omega)
          (fun j hj1 hj2 => htv j (by omega) hj2)]
      · rw [if_neg hP]
        rw [ih k { f with upDisabled := false } (next + 1)
          (by omega) (by omega)
          (by show allCount f = next + 1 + (m : Int); push_cast at hall; omega)
          (fun j hj1 hj2 => htv j (by omega) hj2)]

/-- Stepping forward across m TextView items onto an eligible candidate:
nn performs exactly one SetFocus at the first non-TextView candidate, after
enabling the up affordance and disabling the down affordance only when the
candidate is the final index. -/
theorem nnAux_lands_eq (m : Nat) :
    ∀ (fuel : Nat) (f : FormScrollable) (next : Int),
      m + 1 ≤ fuel → 0 < next →
      (∀ j : Int, next ≤ j → j < next + m → isTextViewIn f.items j = true) →
      isTextViewIn f.items (next + m) = false →
      next + m < allCount f →
      nnAux fuel f next =
        SetFocusSt
          { f with upDisabled := false, downDisabled := if allCount f - 1 ≤ next + m then true else f.downDisabled }
          (next + m) := by
  induction m with
  | zero =>
      intro fuel f next hfuel hpos _ hland hlt
      obtain ⟨k, rfl⟩ : ∃ k, fuel = k + 1 := ⟨fuel - 1, by omega⟩
      simp only [Nat.cast_zero, add_zero] at hland hlt ⊢
      simp only [nnAux]
      rw [if_pos hpos, if_neg (show ¬ allCount f ≤ next by omega)]
      rw [if_neg (show ¬ (next < (f.items.length : Int) ∧ isTextViewIn f.items next = true) by
        intro hc
        rw [hland] at hc
        exact absurd hc.2 (by simp))]
      by_cases hP : allCount f - 1 ≤ next
      · rw [if_pos hP, if_pos hP]
      · rw [if_neg hP, if_neg hP]
  | succ m ih =>
      intro fuel f next hfuel hpos htv hland hlt
      obtain ⟨k, rfl⟩ : ∃ k, fuel = k + 1 := ⟨fuel - 1, by omega⟩
      have hidx : next + 1 + (m : Int) = next + ((m + 1 : Nat) : Int) := by push_cast; ring
      have htv_next : isTextViewIn f.items next = true :=
        htv next le_rfl (by push_cast; omega)
      have hbounds := isTextViewIn_true_bounds f.items next htv_next
      have hP : ¬ allCount f - 1 ≤ next := by push_cast at hlt; omega
      simp only [nnAux]
      rw [if_pos hpos, if_neg (show ¬ allCount f ≤ next by push_cast at hlt; omega),
        if_pos (And.intro hbounds.2 htv_next), if_neg hP]
      have hih := ih k { f with upDisabled := false } (next + 1)
        (by omega) (by omega)
        (fun j hj1 hj2 => htv j (by omega) (by rw [hidx] at hj2; omega))
        (by show isTextViewIn f.items (next + 1 + (m : Int)) = false; rw [hidx]; exact hland)
        (by show next + 1 + (m : Int) < allCount f; rw [hidx]; exact hlt)
      rw [hidx] at hih
      rw [hih]
      rfl

/-- Stepping backward with a negative candidate is a complete no-op. -/
theorem bbAux_noop (fuel : Nat) (f : FormScrollable) (prev : Int) (h : prev < 0) :
    bbAux (fuel + 1) f prev = f := by
  simp only [bbAux]
  rw [if_neg (show ¬ prev = 0 by omega), if_pos h]

/-- Stepping backward across m TextView items onto an eligible candidate:
bb performs exactly one SetFocus at the first non-TextView candidate below,
re-enabling the down affordance and disabling the up affordance only when
the candidate is index 0. -/
theorem bbAux_lands_eq (m : Nat) :
    ∀ (fuel : Nat) (f : FormScrollable) (prev : Int),
      m + 1 ≤ fuel →
      0 ≤ prev - m →
      (∀ j : Int, prev - m < j → j ≤ prev → isTextViewIn f.items j = true) →
      isTextViewIn f.items (prev - m) = false →
      prev < allCount f →
      bbAux fuel f prev =
        SetFocusSt
          { f with upDisabled := if prev - m = 0 then true else f.upDisabled, downDisabled := false }
          (prev - m) := by
  induction m with
  | zero =>
      intro fuel f prev hfuel h0m _ hland hlt
      obtain ⟨k, rfl⟩ : ∃ k, fuel = k + 1 := ⟨fuel - 1, by omega⟩
      simp only [Nat.cast_zero, sub_zero] at h0m hland ⊢
      simp only [bbAux]
      by_cases h0 : prev = 0
      · rw [if_pos h0, if_neg (show ¬ prev < 0 by omega)]
        rw [if_neg (show ¬ (prev < (f.items.length : Int) ∧ isTextViewIn f.items prev = true) by
          intro hc
          rw [hland] at hc
          exact absurd hc.2 (by simp))]
        rw [if_pos h0]
      · rw [if_neg h0, if_neg (show ¬ prev < 0 by omega)]
        rw [if_neg (show ¬ (prev < (f.items.length : Int) ∧ isTextViewIn f.items prev = true) by
          intro hc
          rw [hland] at hc
          exact absurd hc.2 (by simp))]
        rw [if_neg h0]
  | succ m ih =>
      intro fuel f prev hfuel h0m htv hland hlt
      obtain ⟨k, rfl⟩ : ∃ k, fuel = k + 1 := ⟨fuel - 1, by omega⟩
      have hidx : prev - 1 - (m : Int) = prev - ((m + 1 : Nat) : Int) := by push_cast; ring
      have hpos : 0 < prev := by push_cast at h0m; omega
      have htv_prev : isTextViewIn f.items prev = true :=
        htv prev (by push_cast; push_cast at h0m; omega) le_rfl
      have hbounds := isTextViewIn_true_bounds f.items prev htv_prev
      simp only [bbAux]
      rw [if_neg (show ¬ prev = 0 by omega), if_neg (show ¬ prev < 0 by omega),
        if_pos (And.intro hbounds.2 htv_prev)]
      have hih := ih k { f with downDisabled := false } (prev - 1)
        (by omega)
        (by show 0 ≤ prev - 1 - (m : Int); rw [hidx]; exact h0m)
        (fun j hj1 hj2 => htv j (by rw [hidx] at hj1; push_cast at *; omega) (by omega))
        (by show isTextViewIn f.items (prev - 1 - (m : Int)) = false; rw [hidx]; exact hland)
        (by show prev - 1 < allCount f; omega)
      rw [hidx] at hih
      rw [hih]

/-! ## Claim C2 -/

/-- Claim C2, counterexample to the backward half: after one forward-step
click on the one-item form, focusedElement is still 0 (the first traversable
index, not a TextView) and the up affordance has been enabled; the backward
step from index 0 then changes nothing at all, so the up affordance stays
enabled rather than disabled as the claim states. -/
theorem c2_step_boundary_counterexample :
    (onNext c2CexStart).focusedElement = 0 ∧
    isTextViewIn (onNext c2CexStart).items 0 = false ∧
    onBack (onNext c2CexStart) = onNext c2CexStart ∧
    (onBack (onNext c2CexStart)).upDisabled = false := by
  refine ⟨?_, ?_, ?_, ?_⟩ <;> decide

/-- Claim C2, amended: invoking the forward-step action while focusedElement
is the last traversable index performs no focus change, enables the scroll
up affordance and leaves the scroll down affordance disabled; invoking the
backward-step action while focusedElement is index 0 is a complete no-op: it
changes no focus and leaves both scroll affordances exactly as they were (in
particular the scroll up affordance stays disabled only if it already was
disabled). -/
theorem c2_step_boundary_amended :
    (∀ f : FormScrollable,
      0 ≤ f.focusedElement →
      f.focusedElement < allCount f →
      (∀ j : Int, f.focusedElement < j → j < allCount f → isTextViewIn f.items j = true) →
      onNext f = { f with upDisabled := false, downDisabled := true }) ∧
    (∀ f : FormScrollable, f.focusedElement = 0 → onBack f = f) := by
  constructor
  · intro f h0 hlt htv
    exact nnAux_past (allCount f - f.focusedElement - 1).toNat
      (f.items.length + f.buttons.length + 2) f (f.focusedElement + 1)
      (by simp only [allCount] at hlt ⊢; omega)
      (by omega)
      (by simp only [allCount] at hlt ⊢; omega)
      (fun j hj1 hj2 => htv j (by omega) hj2)
  · intro f hfe
    show bbAux (f.items.length + 2) f (f.focusedElement - 1) = f
    rw [hfe]
    rw [show f.items.length + 2 = (f.items.length + 1) + 1 by omega]
    exact bbAux_noop (f.items.length + 1) f (0 - 1) (by omega)

/-- Witness for the amended C2 at the concrete one-item form. -/
theorem c2_step_boundary_amended_witness :
    onNext c2CexStart = { c2CexStart with upDisabled := false, downDisabled := true } ∧
    onBack c2CexStart = c2CexStart :=
  ⟨c2_step_boundary_amended.1 c2CexStart (by decide) (by decide)
      (fun j hj1 hj2 => by
        have h1 : c2CexStart.focusedElement = 0 := rfl
        have h2 : allCount c2CexStart = 1 := by decide
        rw [h1] at hj1
        rw [h2] at hj2
        omega),
    c2_step_boundary_amended.2 c2CexStart (by decide)⟩

/-! ## Claim C7 -/

/-- Claim C7: for a run of k consecutive TextView items strictly between two
interactive traversable elements (positions i and i+k+1), the forward step
from i is exactly one SetFocus at i+k+1 (after updating the scroll
affordances) and lands focusedElement there, and the backward step from
i+k+1 is exactly one SetFocus at i and lands focusedElement there; since the
only focus handed out in either direction is by that single SetFocus at an
interactive endpoint, no TextView item of the run ever receives focus. -/
theorem c7_skip_text_view_run (f g : FormScrollable) (i k : Nat)
    (hfe : f.focusedElement = (i : Int))
    (hk : 1 ≤ k)
    (hrun : ∀ j : Nat, i + 1 ≤ j → j ≤ i + k → isTextViewIn f.items (j : Int) = true)
    (hend1 : isTextViewIn f.items (i : Int) = false)
    (hend2 : isTextViewIn f.items ((i : Int) + (k : Int) + 1) = false)
    (hlt : (i : Int) + (k : Int) + 1 < allCount f)
    (hgi : g.items = f.items) (hgb : g.buttons = f.buttons)
    (hgf : g.focusedElement = (i : Int) + (k : Int) + 1) :
    (onNext f =
      SetFocusSt
        { f with upDisabled := false, downDisabled := if allCount f - 1 ≤ (i : Int) + (k : Int) + 1 then true else f.downDisabled }
        ((i : Int) + (k : Int) + 1)) ∧
    (onNext f).focusedElement = (i : Int) + (k : Int) + 1 ∧
    (onBack g =
      SetFocusSt
        { g with upDisabled := if (i : Int) = 0 then true else g.upDisabled, downDisabled := false }
        (i : Int)) ∧
    (onBack g).focusedElement = (i : Int) := by
  have hall : allCount g = allCount f := by simp only [allCount, hgi, hgb]
  have hidx : ((i : Int) + 1) + (k : Int) = (i : Int) + (k : Int) + 1 := by ring
  have hfwd := nnAux_lands_eq k (f.items.length + f.buttons.length + 2) f ((i : Int) + 1)
    (by simp only [allCount] at hlt; omega)
    (by omega)
    (fun j hj1 hj2 => by
      have hj0 : (0 : Int) ≤ j := by omega
      have hcast : ((j.toNat : Nat) : Int) = j := Int.toNat_of_nonneg hj0
      rw [← hcast]
      exact hrun j.toNat (by omega) (by omega))
    (by rw [hidx]; exact hend2)
    (by rw [hidx]; exact hlt)
  rw [hidx] at hfwd
  have honn : onNext f =
      SetFocusSt
        { f with upDisabled := false, downDisabled := if allCount f - 1 ≤ (i : Int) + (k : Int) + 1 then true else f.downDisabled }
        ((i : Int) + (k : Int) + 1) := by
    show nnAux (f.items.length + f.buttons.length + 2) f (f.focusedElement + 1) = _
    conv_lhs => rw [hfe]
    exact hfwd
  have hkitems : ((i + k : Nat) : Int) < (f.items.length : Int) := by
    have := isTextViewIn_true_bounds f.items ((i + k : Nat) : Int)
      (hrun (i + k) (by omega) le_rfl)
    exact this.2
  have hidx2 : (i : Int) + (k : Int) - (k : Int) = (i : Int) := by ring
  have hbwd := bbAux_lands_eq k (g.items.length + 2) g ((i : Int) + (k : Int))
    (by rw [hgi]; push_cast at hkitems; omega)
    (by omega)
    (fun j hj1 hj2 => by
      rw [hgi]
      have hj0 : (0 : Int) ≤ j := by omega
      have hcast : ((j.toNat : Nat) : Int) = j := Int.toNat_of_nonneg hj0
      rw [← hcast]
      exact hrun j.toNat (by omega) (by omega))
    (by rw [hgi, hidx2]; exact hend1)
    (by rw [hall]; omega)
  rw [hidx2] at hbwd
  have honb : onBack g =
      SetFocusSt
        { g with upDisabled := if (i : Int) = 0 then true else g.upDisabled, downDisabled := false }
        (i : Int) := by
    show bbAux (g.items.length + 2) g (g.focusedElement - 1) = _
    conv_lhs => rw [hgf, show (i : Int) + (k : Int) + 1 - 1 = (i : Int) + (k : Int) by ring]
    exact hbwd
  refine ⟨honn, ?_, honb, ?_⟩
  · rw [honn]
    exact SetFocusSt_fe_of_range _ _ (by omega) (by exact hlt)
  · rw [honb]
    exact SetFocusSt_fe_of_range _ _ (by omega) (by rw [show allCount { g with upDisabled := if (i : Int) = 0 then true else g.upDisabled, downDisabled := false } = allCount f from hall]; omega)

/-- Witness for C7: forward from item 0 skips the TextView at 1 and lands on
item 2; backward from item 2 skips it and lands on item 0. -/
theorem c7_skip_text_view_run_witness :
    (onNext c7WitnessForm).focusedElement = 2 ∧
    (onBack c7WitnessBack).focusedElement = 0 := by
  have h := c7_skip_text_view_run c7WitnessForm c7WitnessBack 0 1 (by decide) (by decide)
    (fun j h1 h2 => by
      have hj : j = 1 := by omega
      subst hj
      decide)
    (by decide) (by decide) (by decide) rfl rfl (by decide)
  refine ⟨?_, ?_⟩
  · have h1 := h.2.1
    norm_num at h1
    exact h1
  · have h2 := h.2.2.2
    norm_num at h2
    exact h2

/-! ## Claim C3 -/

/-- Every button position delegated by the button loop holds a non-disabled
button. -/
theorem focusButtonScan_delegated_enabled (bs : List FormButton) :
    ∀ (idx : Nat) (ilen total fe : Int) (j : Nat),
      j ∈ (focusButtonScan bs idx ilen total fe).2 →
      idx ≤ j ∧ ∃ b, bs[j - idx]? = some b ∧ b.disabled = false := by
  induction bs with
  | nil => intro idx ilen total fe j hj; simp [focusButtonScan] at hj
  | cons b rest ih =>
      intro idx ilen total fe j hj
      rw [focusButtonScan] at hj
      split_ifs at hj with h1 h2 h3
      · obtain ⟨hle, b1, hb1, hd1⟩ := ih (idx + 1) ilen total 0 j hj
        refine ⟨by omega, b1, ?_, hd1⟩
        rw [show j - idx = (j - (idx + 1)) + 1 by omega, List.getElem?_cons_succ]
        exact hb1
      · obtain ⟨hle, b1, hb1, hd1⟩ := ih (idx + 1) ilen total (fe + 1) j hj
        refine ⟨by omega, b1, ?_, hd1⟩
        rw [show j - idx = (j - (idx + 1)) + 1 by omega, List.getElem?_cons_succ]
        exact hb1
      · dsimp only at hj
        rcases List.mem_cons.mp hj with hj0 | hjr
        · subst hj0
          refine ⟨le_refl j, b, ?_, ?_⟩
          · rw [Nat.sub_self]
            simp
          · revert h2; cases b.disabled <;> simp
        · obtain ⟨hle, b1, hb1, hd1⟩ := ih (idx + 1) ilen total fe j hjr
          refine ⟨by omega, b1, ?_, hd1⟩
          rw [show j - idx = (j - (idx + 1)) + 1 by omega, List.getElem?_cons_succ]
          exact hb1
      · obtain ⟨hle, b1, hb1, hd1⟩ := ih (idx + 1) ilen total fe j hj
        refine ⟨by omega, b1, ?_, hd1⟩
        rw [show j - idx = (j - (idx + 1)) + 1 by omega, List.getElem?_cons_succ]
        exact hb1

/-- Claim C3, counterexample to the advance-until-delegation clause:
focusedElement designates the disabled button 1, a non-disabled button
exists at position 0, yet Focus hands the delegated focus to no child at
all (the advance wraps to 0 after the loop has already passed button 0, so
the Box of the container keeps focus). -/
theorem c3_focus_counterexample :
    c3CexForm.focusedElement = 1 ∧
    c3CexForm.buttons[1]? = some { disabled := true, hasFocus := false } ∧
    c3CexForm.buttons[0]? = some { disabled := false, hasFocus := false } ∧
    (FocusModel c3CexForm).delegatedItems = [] ∧
    (FocusModel c3CexForm).delegatedButtons = [] ∧
    (FocusModel c3CexForm).boxFocused = true := by
  refine ⟨?_, ?_, ?_, ?_, ?_, ?_⟩ <;> decide

/-- Claim C3, amended: when Focus runs, an out-of-bounds focusedElement
behaves exactly as 0, and a disabled button is never the element handed the
delegated focus: when focusedElement designates a disabled button it is
advanced forward (wrapping to 0 once past the end of items++buttons), but
the advance only considers buttons the loop has not yet passed, so when the
wrap lands on an already-passed button position no child is delegated and
the container itself keeps focus. -/
theorem c3_focus_amended :
    (∀ f : FormScrollable,
      (f.focusedElement < 0 ∨ allCount f ≤ f.focusedElement) →
      FocusModel f = FocusModel { f with focusedElement := 0 }) ∧
    (∀ (f : FormScrollable) (j : Nat) (b : FormButton),
      j ∈ (FocusModel f).delegatedButtons →
      f.buttons[j]? = some b →
      b.disabled = false) := by
  constructor
  · intro f hoob
    simp only [FocusModel, allCount]
    rw [if_pos (by simpa only [allCount] using hoob)]
    by_cases h2 : ((0 : Int) < 0 ∨ (f.items.length : Int) + (f.buttons.length : Int) ≤ 0)
    · rw [if_pos h2]
    · rw [if_neg h2]
  · intro f j b hj hb
    obtain ⟨hle, b1, hb1, hd1⟩ :=
      focusButtonScan_delegated_enabled f.buttons 0 (f.items.length : Int) (allCount f) _ j hj
    rw [Nat.sub_zero] at hb1
    rw [hb] at hb1
    cases hb1
    exact hd1

/-- Witness for the amended C3: button 0 is delegated and is indeed not
disabled, and an out-of-range focusedElement behaves as 0. -/
theorem c3_focus_amended_witness :
    (0 ∈ (FocusModel c3WitnessForm).delegatedButtons) ∧
    c3WitnessForm.buttons[0]? = some { disabled := false, hasFocus := false } ∧
    ({ disabled := false, hasFocus := false } : FormButton).disabled = false ∧
    FocusModel { c3WitnessForm with focusedElement := 5 } =
      FocusModel { c3WitnessForm with focusedElement := 0 } :=
  ⟨by decide, by decide,
    c3_focus_amended.2 c3WitnessForm 0 _ (by decide) (by decide),
    c3_focus_amended.1 { c3WitnessForm with focusedElement := 5 } (by decide)⟩

/-! ## Claims C5 and C10 -/

/-- When the key is not recorded, recordKey changes nothing. -/
theorem recordKey_neg (f : FormScrollable) (key : Int) (h : key < 0) :
    recordKey f key = f :=
  if_neg (by omega)

/-- A nonnegative key is recorded. -/
theorem recordKey_nonneg (f : FormScrollable) (key : Int) (h : 0 ≤ key) :
    recordKey f key = { f with lastFinishedKey := key } :=
  if_pos h

/-- Definitional unfolding of one handler invocation. -/
theorem handlerRun_eq (fuel : Nat) (f : FormScrollable) (key : Int) :
    handlerRun fuel f key =
      if key = keyTab ∨ key = keyEnter then
        { st := FocusSt { recordKey f key with focusedElement := (recordKey f key).focusedElement + 1 }
          cancelCalled := false }
      else if key = keyBacktab then
        { st := FocusSt { recordKey f key with focusedElement := if (recordKey f key).focusedElement - 1 < 0 then allCount (recordKey f key) - 1 else (recordKey f key).focusedElement - 1 }
          cancelCalled := false }
      else if key = keyEscape then
        if (recordKey f key).hasCancel then
          { st := recordKey f key, cancelCalled := true }
        else
          { st := FocusSt { recordKey f key with focusedElement := 0 }, cancelCalled := false }
      else if key < 0 ∧ 0 ≤ (recordKey f key).lastFinishedKey then
        match fuel with
        | 0 => { st := recordKey f key, cancelCalled := false }
        | n + 1 => handlerRun n (recordKey f key) (recordKey f key).lastFinishedKey
      else { st := recordKey f key, cancelCalled := false } := by rw [handlerRun.eq_def]

/-- For a nonnegative key the handler never recurses, so the fuel is
irrelevant. -/
theorem handlerRun_fuel_nonneg (f : FormScrollable) (key : Int) (h : 0 ≤ key) (n m : Nat) :
    handlerRun n f key = handlerRun m f key := by
  rw [handlerRun_eq, handlerRun_eq]
  split_ifs <;> first | rfl | (exfalso; omega)

/-- A negative key with a recorded nonnegative key replays the handler on
the recorded key. -/
theorem handler_replay (f : FormScrollable) (key : Int) (hneg : key < 0)
    (hlfk : 0 ≤ f.lastFinishedKey) :
    handlerModel f key = handlerModel f f.lastFinishedKey := by
  show handlerRun 1 f key = handlerRun 1 f f.lastFinishedKey
  conv_lhs => rw [handlerRun_eq]
  rw [if_neg (show ¬ (key = keyTab ∨ key = keyEnter) by simp only [keyTab, keyEnter]; omega)]
  rw [if_neg (show ¬ key = keyBacktab by simp only [keyBacktab]; omega)]
  rw [if_neg (show ¬ key = keyEscape by simp only [keyEscape]; omega)]
  rw [if_pos (show key < 0 ∧ 0 ≤ (recordKey f key).lastFinishedKey by
    refine ⟨hneg, ?_⟩
    rw [recordKey_neg f key hneg]
    exact hlfk)]
  show handlerRun 0 (recordKey f key) (recordKey f key).lastFinishedKey = _
  rw [recordKey_neg f key hneg]
  exact handlerRun_fuel_nonneg f f.lastFinishedKey hlfk 0 1

/-- Claim C5, counterexample: key code 256 (tcell.KeyRune) is nonnegative
and not one of Tab/Enter/Backtab/Escape, and a previous valid key (Tab) is
recorded; the claim says the handler replays the Tab action, which would
advance focusedElement to 1, but the handler only records the key and
leaves focusedElement at 0. -/
theorem c5_exit_handler_counterexample :
    (handlerModel c5CexForm 256).st.focusedElement = 0 ∧
    (handlerModel c5CexForm 256).st.lastFinishedKey = 256 ∧
    (handlerModel c5CexForm keyTab).st.focusedElement = 1 := by
  refine ⟨?_, ?_, ?_⟩ <;> decide

/-- Claim C5, amended: Escape invokes the registered cancel callback when
one is set (recording the key, changing nothing else) and otherwise resets
focusedElement to 0 and re-runs delegation; every unrecognized negative key
code, provided a recorded nonnegative key exists, replays the recorded key
action; an unrecognized nonnegative key code only records itself as the
last finished key and performs no action. -/
theorem c5_exit_handler_amended (f : FormScrollable) (key : Int) :
    (f.hasCancel = true →
      handlerModel f keyEscape =
        { st := { f with lastFinishedKey := keyEscape }, cancelCalled := true }) ∧
    (f.hasCancel = false →
      handlerModel f keyEscape =
        { st := FocusSt { f with lastFinishedKey := keyEscape, focusedElement := 0 }
          cancelCalled := false }) ∧
    (key < 0 → 0 ≤ f.lastFinishedKey →
      handlerModel f key = handlerModel f f.lastFinishedKey) ∧
    (0 ≤ key → key ≠ keyTab → key ≠ keyEnter → key ≠ keyBacktab → key ≠ keyEscape →
      handlerModel f key = { st := { f with lastFinishedKey := key }, cancelCalled := false }) := by
  refine ⟨?_, ?_, fun hneg hlfk => handler_replay f key hneg hlfk, ?_⟩
  · intro hc
    show handlerRun 1 f keyEscape = _
    rw [handlerRun_eq]
    rw [if_neg (show ¬ (keyEscape = keyTab ∨ keyEscape = keyEnter) by decide)]
    rw [if_neg (show ¬ keyEscape = keyBacktab by decide)]
    rw [if_pos (show keyEscape = keyEscape from rfl)]
    rw [recordKey_nonneg f keyEscape (by decide)]
    rw [if_pos (show ({ f with lastFinishedKey := keyEscape } : FormScrollable).hasCancel = true from hc)]
  · intro hc
    show handlerRun 1 f keyEscape = _
    rw [handlerRun_eq]
    rw [if_neg (show ¬ (keyEscape = keyTab ∨ keyEscape = keyEnter) by decide)]
    rw [if_neg (show ¬ keyEscape = keyBacktab by decide)]
    rw [if_pos (show keyEscape = keyEscape from rfl)]
    rw [recordKey_nonneg f keyEscape (by decide)]
    rw [if_neg (show ¬ ({ f with lastFinishedKey := keyEscape } : FormScrollable).hasCancel = true by
      rw [show ({ f with lastFinishedKey := keyEscape } : FormScrollable).hasCancel = f.hasCancel from rfl, hc]
      simp)]
  · intro hpos h1 h2 h3 h4
    show handlerRun 1 f key = _
    rw [handlerRun_eq]
    rw [if_neg (show ¬ (key = keyTab ∨ key = keyEnter) by tauto)]
    rw [if_neg h3]
    rw [if_neg h4]
    rw [if_neg (show ¬ (key < 0 ∧ 0 ≤ (recordKey f key).lastFinishedKey) by
      intro hcon
      omega)]
    rw [recordKey_nonneg f key hpos]

/-- Witness for the amended C5: Escape with a cancel callback records the
key and reports the callback invocation; key -7 replays the recorded Tab;
key 256 only records itself. -/
theorem c5_exit_handler_amended_witness :
    handlerModel c5WitnessForm keyEscape =
      { st := { c5WitnessForm with lastFinishedKey := keyEscape }, cancelCalled := true } ∧
    handlerModel c5WitnessForm (-7) = handlerModel c5WitnessForm c5WitnessForm.lastFinishedKey ∧
    handlerModel c5WitnessForm 256 =
      { st := { c5WitnessForm with lastFinishedKey := 256 }, cancelCalled := false } :=
  ⟨(c5_exit_handler_amended c5WitnessForm 0).1 (by decide),
    (c5_exit_handler_amended c5WitnessForm (-7)).2.2.1 (by decide) (by decide),
    (c5_exit_handler_amended c5WitnessForm 256).2.2.2 (by decide) (by decide) (by decide)
      (by decide) (by decide)⟩

/-- Claim C10: NewFormScrollable initialises the last-finished-key register
to Tab, and for any state whose register holds Tab every negative key code
delivered to the handler behaves exactly as a Tab press. -/
theorem c10_initial_tab_replay :
    initFormScrollable.lastFinishedKey = keyTab ∧
    ∀ (f : FormScrollable) (key : Int), f.lastFinishedKey = keyTab → key < 0 →
      handlerModel f key = handlerModel f keyTab := by
  refine ⟨rfl, ?_⟩
  intro f key hlfk hneg
  have h := handler_replay f key hneg (by rw [hlfk]; decide)
  rw [hlfk] at h
  exact h

/-- Witness for C10: the first negative key on a fresh two-item form equals
a Tab press, which advances focusedElement to 1. -/
theorem c10_initial_tab_replay_witness :
    handlerModel c10WitnessForm (-1) = handlerModel c10WitnessForm keyTab ∧
    (handlerModel c10WitnessForm (-1)).st.focusedElement = 1 :=
  ⟨c10_initial_tab_replay.2 c10WitnessForm (-1) rfl (by decide), by decide⟩

/-! ## Claim C1: item and button management operations -/

/-- No management operation moves focusedElement away from 0. -/
theorem applyOp_fe_zero (op : FormOp) (f g : FormScrollable)
    (h : applyOp op f = some g) (h0 : f.focusedElement = 0) :
    g.focusedElement = 0 := by
  cases op with
  | addFormItem tv =>
      simp only [applyOp, Option.some.injEq] at h
      rw [← h]
      exact h0
  | addButton =>
      simp only [applyOp, Option.some.injEq] at h
      rw [← h]
      exact h0
  | removeFormItem i =>
      simp only [applyOp] at h
      split_ifs at h with hi
      simp only [Option.some.injEq] at h
      rw [← h]
      exact h0
  | removeButton i =>
      simp only [applyOp] at h
      split_ifs at h with hi
      simp only [Option.some.injEq] at h
      rw [← h]
      exact h0
  | clear b =>
      simp only [applyOp, Option.some.injEq] at h
      rw [← h]
  | clearButtons =>
      simp only [applyOp, Option.some.injEq] at h
      rw [← h]
      exact h0

/-- A sequence of management operations keeps focusedElement at 0. -/
theorem applyOps_fe_zero (ops : List FormOp) :
    ∀ f g : FormScrollable, applyOps ops f = some g → f.focusedElement = 0 →
      g.focusedElement = 0 := by
  induction ops with
  | nil =>
      intro f g h h0
      simp only [applyOps, Option.some.injEq] at h
      rw [← h]
      exact h0
  | cons op rest ih =>
      intro f g h h0
      rw [applyOps] at h
      cases hap : applyOp op f with
      | none => rw [hap] at h; exact absurd h (by simp)
      | some f1 =>
          rw [hap] at h
          exact ih f1 g h (applyOp_fe_zero op f f1 hap h0)

/-- Claim C1: for every sequence of AddFormItem, AddButton, RemoveFormItem,
RemoveButton, Clear and ClearButtons operations applied to a fresh
FormScrollable, focusedElement stays within [0, len(items)+len(buttons))
whenever that interval is non-empty (these operations never move it away
from its initial value 0, and Clear resets it to 0). -/
theorem c1_focused_element_invariant (ops : List FormOp) (f : FormScrollable)
    (h : applyOps ops initFormScrollable = some f) (hne : 0 < allCount f) :
    0 ≤ f.focusedElement ∧ f.focusedElement < allCount f := by
  have h0 := applyOps_fe_zero ops initFormScrollable f h rfl
  rw [h0]
  exact ⟨le_refl 0, hne⟩

/-- Witness for C1 on a concrete operation sequence. -/
theorem c1_focused_element_invariant_witness :
    applyOps [FormOp.addFormItem false, FormOp.addButton, FormOp.removeFormItem 0]
        initFormScrollable = some c1WitnessResult ∧
    0 ≤ c1WitnessResult.focusedElement ∧
    c1WitnessResult.focusedElement < allCount c1WitnessResult :=
  ⟨by decide,
    c1_focused_element_invariant
      [FormOp.addFormItem false, FormOp.addButton, FormOp.removeFormItem 0]
      c1WitnessResult (by decide) (by decide)⟩

/-! ## Claim C8: mouse routing (MouseHandler, form.go lines 839-890) -/

/-- Correspondence between the item loop and the item prefix of the
claimed delivery order. -/
theorem mouseItemScan_find (l : List MouseItem) :
    ∀ (i : Nat) (a : MouseAction),
      (((l.enumFrom i).filter
          (fun p => !(p.2.isTextView && (a == MouseAction.leftDown)))).map
        (fun p => (MouseTarget.item p.1, p.2.consumes))).find? (fun p => p.2) =
        (mouseItemScan l i a).map (fun j => (MouseTarget.item j, true)) := by
  induction l with
  | nil => intro i a; simp [mouseItemScan]
  | cons it rest ih =>
      intro i a
      rw [List.enumFrom_cons, mouseItemScan]
      by_cases hskip : it.isTextView ∧ a = MouseAction.leftDown
      · rw [if_pos hskip]
        have hb : (!(it.isTextView && (a == MouseAction.leftDown))) = false := by
          simp [hskip.1, hskip.2]
        rw [List.filter_cons_of_neg (by simpa using hb)]
        exact ih (i + 1) a
      · rw [if_neg hskip]
        have hb : (!(it.isTextView && (a == MouseAction.leftDown))) = true := by
          rcases Decidable.not_and_iff_or_not.mp hskip with h | h
          · simp [h]
          · simp [show (a == MouseAction.leftDown) = false by simpa using h]
        rw [List.filter_cons_of_pos (by simpa using hb)]
        rw [List.map_cons, List.find?_cons]
        by_cases hcon : it.consumes = true
        · rw [if_pos hcon]
          simp only [hcon]
          rfl
        · rw [if_neg hcon]
          have hcf : it.consumes = false := by revert hcon; cases it.consumes <;> simp
          simp only [hcf]
          exact ih (i + 1) a

/-- Correspondence between the button loop and the button segment of the
claimed delivery order. -/
theorem mouseButtonScan_find (l : List Bool) :
    ∀ i : Nat,
      ((l.enumFrom i).map (fun p => (MouseTarget.button p.1, p.2))).find? (fun p => p.2) =
        (mouseButtonScan l i).map (fun j => (MouseTarget.button j, true)) := by
  induction l with
  | nil => intro i; simp [mouseButtonScan]
  | cons c rest ih =>
      intro i
      rw [List.enumFrom_cons, mouseButtonScan, List.map_cons, List.find?_cons]
      by_cases hc : c = true
      · rw [if_pos hc]
        simp only [hc]
        rfl
      · have hcf : c = false := by revert hc; cases c <;> simp
        rw [if_neg hc]
        simp only [hcf]
        exact ih (i + 1)

/-- Claim C8: the mouse handler of the container never delivers a
mouse-left-down event to a TextView item, and offers every mouse event to
the items in insertion order, then the buttons in insertion order, then
the up scroll button, then the down scroll button, stopping at the first
consumer; an event no handler consumes falls back to the container itself
exactly for a left-down inside its rectangle. -/
theorem c8_mouse_routing (env : MouseEnv) (a : MouseAction) :
    mouseHandlerModel env a =
      match (specOfferOrder env a).find? (fun p => p.2) with
      | some p => some p.1
      | none =>
        if a = MouseAction.leftDown ∧ env.formInRect then some MouseTarget.container
        else none := by
  rw [specOfferOrder, List.find?_append, List.find?_append,
    mouseItemScan_find, mouseButtonScan_find, mouseHandlerModel]
  cases h1 : mouseItemScan env.items 0 a with
  | some i => simp
  | none =>
      simp only [Option.map_none, Option.none_or]
      cases h2 : mouseButtonScan env.buttons 0 with
      | some i => simp
      | none =>
          cases hu : nfbConsumes a env.upInRect <;>
            cases hd : nfbConsumes a env.downInRect <;>
            simp [List.find?_cons]

end TviewWidgets
